import Mathlib

/-!
Verification of the victor-floppy-db core: the A2R container decoder
(`scripts/a2r_reader.py`) and the duplicate-detection engine
(`floppies/models.py`, class `Entry`).

Bytes are modelled as natural numbers (each < 256 in real data) and byte
streams as lists of naturals; decoded text is modelled as a list of Unicode
code points.  Python exceptions are modelled by `Except` with the error
taxonomy named in the specification: the `struct.error` raised by
`struct.unpack_from` on a too-short buffer corresponds to
`MalformedInfoChunkError`, and `UnicodeDecodeError` corresponds to
`EncodingError`.  `TruncatedContainerError` is part of the spec's taxonomy
but the source has no raise site for it.
-/

/-- Code points of a string, used to build concrete byte/text inputs
(all inputs used here are ASCII, so code points and bytes coincide). -/
def asciiCps (s : String) : List Nat := s.data.map Char.toNat

/-- Python `str.strip()` whitespace set (Unicode whitespace as stripped by
CPython: bidirectional classes WS/B/S and category Zs). -/
def pyIsSpace (c : Nat) : Bool :=
  (9 ≤ c && c ≤ 13) || (28 ≤ c && c ≤ 31) || c == 32 || c == 133 ||
  c == 160 || c == 5760 || (8192 ≤ c && c ≤ 8202) || c == 8232 ||
  c == 8233 || c == 8239 || c == 8287 || c == 12288

/-- Python `str.strip()` with no arguments: remove leading and trailing
whitespace code points. -/
def pyStrip (l : List Nat) : List Nat :=
  ((l.dropWhile pyIsSpace).reverse.dropWhile pyIsSpace).reverse

/-- Python `str.rstrip(' ')`: remove trailing space (code point 32) only. -/
def pyRstripSpace (l : List Nat) : List Nat :=
  (l.reverse.dropWhile (fun c => c == 32)).reverse

/-- Python `str.split(sep)` for a one-character separator: keeps empty
fields, always returns at least one (possibly empty) field. -/
def pySplitOn (sep : Nat) : List Nat → List (List Nat)
  | [] => [[]]
  | c :: cs =>
    let r := pySplitOn sep cs
    if c == sep then [] :: r
    else
      match r with
      | h :: t => (c :: h) :: t
      | [] => [[c]]

/-- Lower bound of the second byte of a 3-byte UTF-8 sequence (E0 excludes
overlong encodings). -/
def utf8Cont2Lo (b : Nat) : Nat := if b == 224 then 160 else 128

/-- Upper bound of the second byte of a 3-byte UTF-8 sequence (ED excludes
surrogates). -/
def utf8Cont2Hi (b : Nat) : Nat := if b == 237 then 159 else 191

/-- Lower bound of the second byte of a 4-byte UTF-8 sequence (F0 excludes
overlong encodings). -/
def utf8Cont3Lo (b : Nat) : Nat := if b == 240 then 144 else 128

/-- Upper bound of the second byte of a 4-byte UTF-8 sequence (F4 caps
code points at U+10FFFF). -/
def utf8Cont3Hi (b : Nat) : Nat := if b == 244 then 143 else 191

/-- Strict UTF-8 decoding of a byte list into a code-point list, as
performed by Python's `bytes.decode('utf-8')`: rejects continuation-byte
errors, overlong encodings, surrogates and code points above U+10FFFF.
Returns `none` where Python raises `UnicodeDecodeError`. -/
def utf8Decode : List Nat → Option (List Nat)
  | [] => some []
  | b :: bs =>
    if b < 128 then (utf8Decode bs).map (fun r => b :: r)
    else if 194 ≤ b && b ≤ 223 then
      match bs with
      | b2 :: bs2 =>
        if 128 ≤ b2 && b2 ≤ 191 then
          (utf8Decode bs2).map (fun r => ((b - 192) * 64 + (b2 - 128)) :: r)
        else none
      | [] => none
    else if 224 ≤ b && b ≤ 239 then
      match bs with
      | b2 :: b3 :: bs3 =>
        if utf8Cont2Lo b ≤ b2 && b2 ≤ utf8Cont2Hi b &&
           128 ≤ b3 && b3 ≤ 191 then
          (utf8Decode bs3).map
            (fun r => ((b - 224) * 4096 + (b2 - 128) * 64 + (b3 - 128)) :: r)
        else none
      | _ => none
    else if 240 ≤ b && b ≤ 244 then
      match bs with
      | b2 :: b3 :: b4 :: bs4 =>
        if utf8Cont3Lo b ≤ b2 && b2 ≤ utf8Cont3Hi b &&
           128 ≤ b3 && b3 ≤ 191 && 128 ≤ b4 && b4 ≤ 191 then
          (utf8Decode bs4).map
            (fun r => ((b - 240) * 262144 + (b2 - 128) * 4096 +
                       (b3 - 128) * 64 + (b4 - 128)) :: r)
        else none
      | _ => none
    else none

/-- Little-endian unsigned 32-bit value of four bytes, as unpacked by
`struct.unpack("<4sI", header)` for the size field. -/
def u32le (b0 b1 b2 b3 : Nat) : Nat :=
  b0 + b1 * 256 + b2 * 65536 + b3 * 16777216

/-- Little-endian 4-byte encoding of an unsigned 32-bit value. -/
def u32leBytes (n : Nat) : List Nat :=
  [n % 256, n / 256 % 256, n / 65536 % 256, n / 16777216 % 256]

instance exceptDecEq {ε α : Type} [DecidableEq ε] [DecidableEq α] :
    DecidableEq (Except ε α) := fun a b =>
  match a, b with
  | .error e1, .error e2 =>
    if h : e1 = e2 then isTrue (by rw [h]) else isFalse (by simp [h])
  | .ok x, .ok y =>
    if h : x = y then isTrue (by rw [h]) else isFalse (by simp [h])
  | .error _, .ok _ => isFalse (by simp)
  | .ok _, .error _ => isFalse (by simp)

/-- The spec's error taxonomy (§7).  `truncatedContainer` has no
corresponding raise site in the source (`read_a2r_datastream` silently
accepts short reads); `malformedInfoChunk` stands for the `struct.error`
raised by `struct.unpack_from` on a too-short INFO payload;
`encodingError` stands for `UnicodeDecodeError`. -/
inductive A2RError where
  | truncatedContainer
  | malformedInfoChunk
  | encodingError
deriving DecidableEq, Repr

/-- Result of `parse_a2r_info_chunk`: the dict returned by the source.
`creator` holds decoded code points with trailing spaces stripped;
`write_protected` and `synchronized` hold the raw byte (the source stores
the `struct.unpack_from("<B", ...)` integer; non-zero means true). -/
structure InfoRecord where
  info_version : Nat
  creator : List Nat
  drive_type : Nat
  write_protected : Nat
  synchronized : Nat
  hard_sector_count : Nat
deriving DecidableEq, Repr

/-- `parse_a2r_info_chunk(data)` from `scripts/a2r_reader.py`.
The source unpacks byte 0, decodes `data[1:33]` as UTF-8 and strips
trailing spaces, then unpacks bytes 33–36.  `struct.unpack_from` at
offset `o` raises `struct.error` when `len(data) < o + 1`; the four
trailing one-byte unpacks are collapsed into the single bound
`len(data) < 37`, which raises the same error. -/
def parse_a2r_info_chunk (data : List Nat) : Except A2RError InfoRecord :=
  if data.length < 1 then .error .malformedInfoChunk
  else
    match utf8Decode ((data.drop 1).take 32) with
    | none => .error .encodingError
    | some creatorCps =>
      if data.length < 37 then .error .malformedInfoChunk
      else .ok
        { info_version := data.getD 0 0
          creator := pyRstripSpace creatorCps
          drive_type := data.getD 33 0
          write_protected := data.getD 34 0
          synchronized := data.getD 35 0
          hard_sector_count := data.getD 36 0 }

/-- A Python dict from code-point keys to code-point values, as an
association list in insertion order. -/
def MetaDict := List (List Nat × List Nat)
deriving DecidableEq

/-- `d[k] = v` on a Python dict: replace the value in place if the key
exists, otherwise append the new pair. -/
def dictInsert : MetaDict → List Nat → List Nat → MetaDict
  | [], k, v => [(k, v)]
  | (k0, v0) :: rest, k, v =>
    if k0 = k then (k0, v) :: rest else (k0, v0) :: dictInsert rest k v

/-- One iteration of the loop in `parse_a2r_meta_chunk`: split the line on
tabs; if it has at least two fields, store `parts[0].strip() ↦
parts[1].strip()`. -/
def metaLineStep (m : MetaDict) (line : List Nat) : MetaDict :=
  let parts := pySplitOn 9 line
  if 2 ≤ parts.length then
    dictInsert m (pyStrip (parts.getD 0 [])) (pyStrip (parts.getD 1 []))
  else m

/-- `parse_a2r_meta_chunk(data)` from `scripts/a2r_reader.py`: decode the
payload as UTF-8 (raising on invalid bytes), strip the whole text, split
into lines on `\n`, and fold each tab-split line into the dict. -/
def parse_a2r_meta_chunk (data : List Nat) : Except A2RError MetaDict :=
  match utf8Decode data with
  | none => .error .encodingError
  | some cps => .ok ((pySplitOn 10 (pyStrip cps)).foldl metaLineStep [])

/-- A binary file opened for reading: the full byte contents and the
current cursor position (`data_stream.tell()`). -/
structure ByteStream where
  data : List Nat
  pos : Nat
deriving DecidableEq, Repr

/-- `data_stream.read(n)`: return up to `n` bytes from the cursor and
advance the cursor by the number of bytes actually returned (a short read
near end of file returns fewer than `n` bytes and is not an error). -/
def streamRead (s : ByteStream) (n : Nat) : List Nat × ByteStream :=
  let bs := (s.data.drop s.pos).take n
  (bs, ⟨s.data, s.pos + bs.length⟩)

/-- `data_stream.seek(n, 1)`: move the cursor forward by `n`, possibly
past the end of the data (a subsequent read then returns nothing). -/
def streamSeek (s : ByteStream) (n : Nat) : ByteStream :=
  ⟨s.data, s.pos + n⟩

/-- Chunk tag `b'INFO'`. -/
def INFO_CHUNK_ID : List Nat := [73, 78, 70, 79]
/-- Chunk tag `b'RWCP'`. -/
def RWCP_CHUNK_ID : List Nat := [82, 87, 67, 80]
/-- Chunk tag `b'META'`. -/
def META_CHUNK_ID : List Nat := [77, 69, 84, 65]

/-- The `a2r_data` dict built by `read_a2r_datastream`: the `"INFO"` and
`"META"` slots, each `None` until the corresponding chunk is parsed
(a later chunk of the same tag overwrites the slot). -/
structure A2RData where
  info : Option InfoRecord
  meta : Option MetaDict
deriving DecidableEq

/-- The `while True` loop of `read_a2r_datastream`: read an 8-byte chunk
header; stop cleanly if fewer than 8 bytes come back; otherwise split it
into a 4-byte tag and a little-endian 32-bit size, and dispatch: `INFO`
and `META` read the payload and parse it (a parse failure propagates),
`RWCP` reads and discards the payload, and any other tag seeks past it.
Note the payload read is `data_stream.read(chunk_size)`, which silently
returns fewer bytes when the stream is truncated. -/
def readChunks : Nat → ByteStream → A2RData →
    Except A2RError (A2RData × ByteStream)
  | 0, s, acc => .ok (acc, s)
  | fuel + 1, s, acc =>
    let hdr := streamRead s 8
    if hdr.1.length < 8 then .ok (acc, hdr.2)
    else
      let chunk_id := hdr.1.take 4
      let chunk_size := u32le (hdr.1.getD 4 0) (hdr.1.getD 5 0)
                              (hdr.1.getD 6 0) (hdr.1.getD 7 0)
      if chunk_id = INFO_CHUNK_ID then
        let pr := streamRead hdr.2 chunk_size
        match parse_a2r_info_chunk pr.1 with
        | .error e => .error e
        | .ok r => readChunks fuel pr.2 { acc with info := some r }
      else if chunk_id = RWCP_CHUNK_ID then
        let pr := streamRead hdr.2 chunk_size
        readChunks fuel pr.2 acc
      else if chunk_id = META_CHUNK_ID then
        let pr := streamRead hdr.2 chunk_size
        match parse_a2r_meta_chunk pr.1 with
        | .error e => .error e
        | .ok m => readChunks fuel pr.2 { acc with meta := some m }
      else
        readChunks fuel (streamSeek hdr.2 chunk_size) acc

/-- `read_a2r_datastream(data_stream)` from `scripts/a2r_reader.py`,
applied to a stream positioned at the start: read and discard the 8-byte
file header, then run the chunk loop.  Returns the `a2r_data` dict
together with the final cursor position (`data_stream.tell()`).
Every loop iteration that does not stop consumes at least 8 bytes of the
stream, so `data.length + 1` iterations always cover the `while True`
loop; the bound is a purely technical recursion argument and is never
reached with bytes still unread. -/
def read_a2r_datastream (data : List Nat) : Except A2RError (A2RData × Nat) :=
  let hdr := streamRead ⟨data, 0⟩ 8
  match readChunks (data.length + 1) hdr.2 ⟨none, none⟩ with
  | .error e => .error e
  | .ok (a, s) => .ok (a, s.pos)

/-- A row of `ZipContent` (`floppies/models.py`): the fields the
duplicate engine reads.  `md5sum` is a nullable string column. -/
structure ZipContent where
  file : String
  md5sum : Option String
deriving DecidableEq

/-- A row of `ZipArchive` with its `zipcontent_set` children. -/
structure ZipArchive where
  archive : String
  contents : List ZipContent
deriving DecidableEq

/-- A row of `Entry` with the fields and relations the duplicate engine
reads: the primary key `id` and the `ziparchives` children.  Django model
equality (`a == b`) compares primary keys, so `a == b` is modelled as
`a.id = b.id`. -/
structure Entry where
  id : Nat
  ziparchives : List ZipArchive
deriving DecidableEq

/-- A Python value that may be handed to the duplicate engine where an
entry is expected: an `Entry` instance or some non-`Entry` value
(`None`, a string, an integer). -/
inductive PyValue where
  | entry : Entry → PyValue
  | pyNone : PyValue
  | pyStr : String → PyValue
  | pyInt : Int → PyValue
deriving DecidableEq

/-- Whether `isinstance(v, Entry)` holds. -/
def PyValue.isEntry : PyValue → Bool
  | .entry _ => true
  | _ => false

/-- `Entry.get_file_hashes(self)`: the frozenset of `md5sum` values over
all `ZipContent` rows of all `ZipArchive` rows of the entry, keeping only
truthy values (`if zip_content.md5sum:` skips both `None` and the empty
string). -/
def get_file_hashes (e : Entry) : Finset String :=
  e.ziparchives.foldl (fun hs za =>
    za.contents.foldl (fun hs2 zc =>
      match zc.md5sum with
      | some m => if m ≠ "" then insert m hs2 else hs2
      | none => hs2) hs) ∅

/-- `Entry.is_duplicate_of(self, other_entry)`: false unless `other_entry`
is an `Entry`; false on equal primary keys; false if either hash set is
falsy (empty); otherwise the sets are compared for equality. -/
def is_duplicate_of (self : Entry) (other : PyValue) : Bool :=
  match other with
  | .entry o =>
    if self.id = o.id then false
    else
      let self_hashes := get_file_hashes self
      let other_hashes := get_file_hashes o
      if self_hashes = ∅ ∨ other_hashes = ∅ then false
      else decide (self_hashes = other_hashes)
  | _ => false

/-- The persisted symmetric duplicate relation: the edge rows of the
`duplicates = ManyToManyField('self', symmetrical=True)` table.  A
symmetrical Django M2M stores each edge in both directions, so adding an
edge inserts both ordered pairs. -/
def dupAdd (rel : Finset (Nat × Nat)) (i j : Nat) : Finset (Nat × Nat) :=
  insert (i, j) (insert (j, i) rel)

/-- `Entry.mark_as_duplicate(self, other_entry)`: re-check
`is_duplicate_of`; on success add the symmetric edge
(`self.duplicates.add(other_entry)`) and return `True`, else leave the
relation unchanged and return `False`.  The add branch can only be
reached with an `Entry` argument, since `is_duplicate_of` is false on
every other value; the non-entry arm of the inner match is dead code. -/
def mark_as_duplicate (rel : Finset (Nat × Nat)) (self : Entry)
    (other : PyValue) : Finset (Nat × Nat) × Bool :=
  if is_duplicate_of self other then
    ((match other with
      | .entry o => dupAdd rel self.id o.id
      | _ => rel), true)
  else (rel, false)

/-- An abstract chunk of the container format: a 4-byte tag and a
payload (§3 of the spec). -/
structure Chunk where
  tag : List Nat
  payload : List Nat
deriving DecidableEq

/-- Serialize one chunk: tag, little-endian 32-bit payload size, payload. -/
def encodeChunk (c : Chunk) : List Nat :=
  c.tag ++ u32leBytes c.payload.length ++ c.payload

/-- Serialize a chunk sequence. -/
def encodeChunks (cs : List Chunk) : List Nat :=
  (cs.map encodeChunk).flatten

/-- A well-formed chunk of a valid container: 4-byte tag, payload size
within 32 bits, and a payload its parser accepts whenever the tag is a
parsed tag. -/
def WfChunk (c : Chunk) : Prop :=
  c.tag.length = 4 ∧ c.payload.length < 4294967296 ∧
  (c.tag = INFO_CHUNK_ID → ∃ r, parse_a2r_info_chunk c.payload = .ok r) ∧
  (c.tag = META_CHUNK_ID → ∃ m, parse_a2r_meta_chunk c.payload = .ok m)

/-- The effect of one chunk on the `a2r_data` slots: an `INFO` chunk that
parses overwrites the `info` slot, a `META` chunk that parses overwrites
the `meta` slot, anything else leaves the slots alone. -/
def accChunk (a : A2RData) (c : Chunk) : A2RData :=
  if c.tag = INFO_CHUNK_ID then
    match parse_a2r_info_chunk c.payload with
    | .ok r => { a with info := some r }
    | .error _ => a
  else if c.tag = META_CHUNK_ID then
    match parse_a2r_meta_chunk c.payload with
    | .ok m => { a with meta := some m }
    | .error _ => a
  else a

/-- The C4 mapping procedure exactly as the claim words it (for a
refinement comparison with the source; not translated from the source):
split the decoded text into newline-delimited lines, split each line on
tabs, ignore lines with fewer than two fields, take the value from the
second field only, last duplicate key wins — no whitespace stripping
anywhere. -/
def claimMetaMapping (cps : List Nat) : MetaDict :=
  (pySplitOn 10 cps).foldl (fun m line =>
    let parts := pySplitOn 9 line
    if 2 ≤ parts.length then dictInsert m (parts.getD 0 []) (parts.getD 1 [])
    else m) []

/-- The amended C4 mapping: as `claimMetaMapping`, but with surrounding
whitespace stripped from the whole text before the line split and from
each key and each value (the stripping the source performs). -/
def amendedMetaMapping (cps : List Nat) : MetaDict :=
  (pySplitOn 10 (pyStrip cps)).foldl (fun m line =>
    let parts := pySplitOn 9 line
    if 2 ≤ parts.length then
      dictInsert m (pyStrip (parts.getD 0 [])) (pyStrip (parts.getD 1 []))
    else m) []

/-- Scenario A INFO payload: version 1, creator `"Sculptured Software"`
padded with spaces to 32 bytes, drive_type 4, write_protected 1,
synchronized 0, hard_sector_count 0. -/
def payloadA : List Nat :=
  [1] ++ asciiCps "Sculptured Software" ++ List.replicate 13 32 ++ [4, 1, 0, 0]

/-- The record Scenario A decodes to. -/
def recA : InfoRecord :=
  { info_version := 1, creator := asciiCps "Sculptured Software",
    drive_type := 4, write_protected := 1, synchronized := 0,
    hard_sector_count := 0 }

/-- The Scenario A container: 8-byte header, one INFO chunk of size 37. -/
def scenarioA : List Nat :=
  List.replicate 8 0 ++ INFO_CHUNK_ID ++ u32leBytes 37 ++ payloadA

/-- A Scenario E stream: the chunk header claims `size = 1000` but only
50 payload bytes remain (a valid 37-byte INFO prefix plus 13 filler
bytes). -/
def truncatedStream : List Nat :=
  List.replicate 8 0 ++ INFO_CHUNK_ID ++ u32leBytes 1000 ++ payloadA ++
    List.replicate 13 0

/-- A concrete well-formed chunk sequence: one INFO chunk and one
unrecognized chunk (tag `XXXX`). -/
def wChunks : List Chunk :=
  [⟨INFO_CHUNK_ID, payloadA⟩, ⟨[88, 88, 88, 88], [1, 2, 3]⟩]

/-- Scenario C entity X: files with hashes `abc` and `def`. -/
def entryX : Entry :=
  ⟨1, [⟨"x.zip", [⟨"file1", some "abc"⟩, ⟨"file2", some "def"⟩]⟩]⟩
/-- Scenario C entity Y: the same hashes under different filenames. -/
def entryY : Entry :=
  ⟨2, [⟨"y.zip", [⟨"other1", some "def"⟩, ⟨"other2", some "abc"⟩]⟩]⟩
/-- Scenario C entity Z: hashes `abc` and `xyz`. -/
def entryZ : Entry :=
  ⟨3, [⟨"z.zip", [⟨"file1", some "abc"⟩, ⟨"file3", some "xyz"⟩]⟩]⟩

/-- Length of the 4-byte size field. -/
theorem u32leBytes_length (n : Nat) : (u32leBytes n).length = 4 := by
  simp [u32leBytes]

/-- Reading the size field back from a serialized chunk header recovers
the payload length, for payloads within the 32-bit bound. -/
theorem u32le_getD_encode (t : List Nat) (n : Nat) (htag : t.length = 4)
    (hsz : n < 4294967296) :
    u32le ((t ++ u32leBytes n).getD 4 0) ((t ++ u32leBytes n).getD 5 0)
          ((t ++ u32leBytes n).getD 6 0) ((t ++ u32leBytes n).getD 7 0) = n := by
  have hgd : ∀ i : Nat, 4 ≤ i →
      (t ++ u32leBytes n).getD i 0 = (u32leBytes n).getD (i - 4) 0 := by
    intro i hi
    have hle : t.length ≤ i := by omega
    simp [List.getD, List.getElem?_append_right hle, htag]
  rw [hgd 4 (by norm_num), hgd 5 (by norm_num), hgd 6 (by norm_num),
      hgd 7 (by norm_num)]
  simp only [u32leBytes, u32le, List.getD]
  norm_num
  omega

/-- `accChunk` on an INFO chunk whose payload parses: overwrite the
`info` slot. -/
theorem accChunk_info_eq (a : A2RData) (c : Chunk) (r : InfoRecord)
    (hI : c.tag = INFO_CHUNK_ID)
    (hr : parse_a2r_info_chunk c.payload = .ok r) :
    accChunk a c = { a with info := some r } := by
  unfold accChunk
  rw [if_pos hI, hr]

/-- `accChunk` on a META chunk whose payload parses: overwrite the
`meta` slot. -/
theorem accChunk_meta_eq (a : A2RData) (c : Chunk) (m : MetaDict)
    (hM : c.tag = META_CHUNK_ID)
    (hm : parse_a2r_meta_chunk c.payload = .ok m) :
    accChunk a c = { a with meta := some m } := by
  unfold accChunk
  rw [if_neg (by rw [hM]; decide), if_pos hM, hm]

/-- `accChunk` on any chunk that is neither INFO nor META: no change. -/
theorem accChunk_skip (a : A2RData) (c : Chunk)
    (hI : c.tag ≠ INFO_CHUNK_ID) (hM : c.tag ≠ META_CHUNK_ID) :
    accChunk a c = a := by
  unfold accChunk
  rw [if_neg hI, if_neg hM]

/-- Core alignment lemma: run the chunk loop on a stream whose unread
suffix is exactly the serialization of a well-formed chunk sequence.  The
loop succeeds, folds every chunk into the `a2r_data` slots, and the final
cursor sits at the end of the data — each chunk advances the cursor by
exactly `8 + size` bytes. -/
theorem readChunks_encode (cs : List Chunk) :
    ∀ (fuel : Nat) (pre : List Nat) (acc : A2RData),
      cs.length < fuel → (∀ c ∈ cs, WfChunk c) →
      readChunks fuel ⟨pre ++ encodeChunks cs, pre.length⟩ acc =
        .ok (cs.foldl accChunk acc,
             ⟨pre ++ encodeChunks cs,
              pre.length + (encodeChunks cs).length⟩) := by
  induction cs with
  | nil =>
    intro fuel pre acc hf _
    obtain ⟨fuel, rfl⟩ : ∃ k, fuel = k + 1 := ⟨fuel - 1, by omega⟩
    simp [readChunks, streamRead, encodeChunks]
  | cons c cs ih =>
    intro fuel pre acc hf hwf
    obtain ⟨fuel, rfl⟩ : ∃ k, fuel = k + 1 := ⟨fuel - 1, by omega⟩
    obtain ⟨htag, hsz, hinfo, hmeta⟩ := hwf c (List.mem_cons_self c cs)
    have hwf' : ∀ x ∈ cs, WfChunk x := fun x hx => hwf x (List.mem_cons_of_mem c hx)
    have hf' : cs.length < fuel := by simp at hf; omega
    have hlen8 : (c.tag ++ u32leBytes c.payload.length).length = 8 := by
      simp [u32leBytes_length, htag]
    have henc : encodeChunks (c :: cs) =
        (c.tag ++ u32leBytes c.payload.length) ++ (c.payload ++ encodeChunks cs) := by
      simp [encodeChunks, encodeChunk]
    have htake8 : (encodeChunks (c :: cs)).take 8 =
        c.tag ++ u32leBytes c.payload.length := by
      rw [henc, List.take_left' hlen8]
    have hsr : streamRead ⟨pre ++ encodeChunks (c :: cs), pre.length⟩ 8 =
        (c.tag ++ u32leBytes c.payload.length,
         ⟨pre ++ encodeChunks (c :: cs), pre.length + 8⟩) := by
      simp only [streamRead, List.drop_left, htake8, hlen8]
    have htake4 : (c.tag ++ u32leBytes c.payload.length).take 4 = c.tag :=
      List.take_left' htag
    have hszeq := u32le_getD_encode c.tag c.payload.length htag hsz
    have hsplit : (pre ++ (c.tag ++ u32leBytes c.payload.length) ++ c.payload) ++
          encodeChunks cs = pre ++ encodeChunks (c :: cs) := by
      rw [henc]; simp [List.append_assoc]
    have hprelen :
        (pre ++ (c.tag ++ u32leBytes c.payload.length) ++ c.payload).length =
          pre.length + 8 + c.payload.length := by
      simp only [List.length_append, hlen8]
    have hdrop2 : (pre ++ encodeChunks (c :: cs)).drop (pre.length + 8) =
        c.payload ++ encodeChunks cs := by
      have h2 : pre ++ encodeChunks (c :: cs) =
          (pre ++ (c.tag ++ u32leBytes c.payload.length)) ++
            (c.payload ++ encodeChunks cs) := by
        rw [henc]; simp [List.append_assoc]
      rw [h2, List.drop_left']
      simp [List.length_append, hlen8]
    have hsr2 : streamRead ⟨pre ++ encodeChunks (c :: cs), pre.length + 8⟩
        c.payload.length =
        (c.payload,
         ⟨pre ++ encodeChunks (c :: cs), pre.length + 8 + c.payload.length⟩) := by
      simp only [streamRead, hdrop2, List.take_left' rfl]
    have hlenc : (encodeChunks (c :: cs)).length =
        8 + c.payload.length + (encodeChunks cs).length := by
      rw [henc]; simp only [List.length_append, htag, u32leBytes_length]; omega
    have ihacc : ∀ acc2 : A2RData,
        readChunks fuel
          ⟨pre ++ encodeChunks (c :: cs), pre.length + 8 + c.payload.length⟩ acc2 =
        .ok (cs.foldl accChunk acc2,
             ⟨pre ++ encodeChunks (c :: cs),
              pre.length + (encodeChunks (c :: cs)).length⟩) := by
      intro acc2
      have h := ih fuel
        (pre ++ (c.tag ++ u32leBytes c.payload.length) ++ c.payload) acc2 hf' hwf'
      rw [hsplit, hprelen] at h
      have hassoc : pre.length + 8 + c.payload.length + (encodeChunks cs).length =
          pre.length + (8 + c.payload.length + (encodeChunks cs).length) := by omega
      rw [h, hlenc, hassoc]
    simp only [readChunks, hsr]
    rw [if_neg (by rw [hlen8]; omega)]
    simp only [htake4, hszeq]
    by_cases hI : c.tag = INFO_CHUNK_ID
    · obtain ⟨r, hr⟩ := hinfo hI
      rw [if_pos hI]
      simp only [hsr2, hr]
      rw [ihacc]
      rw [List.foldl_cons, accChunk_info_eq acc c r hI hr]
    · rw [if_neg hI]
      by_cases hR : c.tag = RWCP_CHUNK_ID
      · rw [if_pos hR]
        simp only [hsr2]
        rw [ihacc]
        rw [List.foldl_cons, accChunk_skip acc c hI (by rw [hR]; decide)]
      · rw [if_neg hR]
        by_cases hM : c.tag = META_CHUNK_ID
        · obtain ⟨m, hm⟩ := hmeta hM
          rw [if_pos hM]
          simp only [hsr2, hm]
          rw [ihacc]
          rw [List.foldl_cons, accChunk_meta_eq acc c m hM hm]
        · rw [if_neg hM]
          have hseek : streamSeek
              ⟨pre ++ encodeChunks (c :: cs), pre.length + 8⟩ c.payload.length =
              ⟨pre ++ encodeChunks (c :: cs),
               pre.length + 8 + c.payload.length⟩ := rfl
          rw [hseek, ihacc]
          rw [List.foldl_cons, accChunk_skip acc c hI hM]

/-- Folding chunks never clears the `info` slot. -/
theorem foldl_accChunk_info_mono (cs : List Chunk) :
    ∀ acc : A2RData, acc.info.isSome = true →
      ((cs.foldl accChunk acc).info).isSome = true := by
  induction cs with
  | nil => intro acc h; exact h
  | cons c cs ih =>
    intro acc h
    rw [List.foldl_cons]
    apply ih
    unfold accChunk
    by_cases hI : c.tag = INFO_CHUNK_ID
    · rw [if_pos hI]
      cases parse_a2r_info_chunk c.payload <;> simp [h]
    · rw [if_neg hI]
      by_cases hM : c.tag = META_CHUNK_ID
      · rw [if_pos hM]
        cases parse_a2r_meta_chunk c.payload <;> simp [h]
      · rw [if_neg hM]; exact h

/-- Folding chunks never clears the `meta` slot. -/
theorem foldl_accChunk_meta_mono (cs : List Chunk) :
    ∀ acc : A2RData, acc.meta.isSome = true →
      ((cs.foldl accChunk acc).meta).isSome = true := by
  induction cs with
  | nil => intro acc h; exact h
  | cons c cs ih =>
    intro acc h
    rw [List.foldl_cons]
    apply ih
    unfold accChunk
    by_cases hI : c.tag = INFO_CHUNK_ID
    · rw [if_pos hI]
      cases parse_a2r_info_chunk c.payload <;> simp [h]
    · rw [if_neg hI]
      by_cases hM : c.tag = META_CHUNK_ID
      · rw [if_pos hM]
        cases parse_a2r_meta_chunk c.payload <;> simp [h]
      · rw [if_neg hM]; exact h

/-- The `info` slot is filled after the fold exactly when it was already
filled or some chunk carries the INFO tag (well-formed chunks only). -/
theorem foldl_accChunk_info_iff (cs : List Chunk) :
    ∀ acc : A2RData, (∀ c ∈ cs, WfChunk c) →
      (((cs.foldl accChunk acc).info).isSome = true ↔
        acc.info.isSome = true ∨ ∃ c ∈ cs, c.tag = INFO_CHUNK_ID) := by
  induction cs with
  | nil => intro acc _; simp
  | cons c cs ih =>
    intro acc hwf
    obtain ⟨htag, hsz, hinfo, hmeta⟩ := hwf c (List.mem_cons_self c cs)
    have hwf' : ∀ x ∈ cs, WfChunk x := fun x hx => hwf x (List.mem_cons_of_mem c hx)
    rw [List.foldl_cons, ih _ hwf']
    by_cases hI : c.tag = INFO_CHUNK_ID
    · obtain ⟨r, hr⟩ := hinfo hI
      rw [accChunk_info_eq acc c r hI hr]
      simp [hI]
    · have hinfoeq : (accChunk acc c).info = acc.info := by
        unfold accChunk
        rw [if_neg hI]
        by_cases hM : c.tag = META_CHUNK_ID
        · rw [if_pos hM]
          cases parse_a2r_meta_chunk c.payload <;> rfl
        · rw [if_neg hM]
      rw [hinfoeq]
      constructor
      · rintro (h | ⟨x, hx, hxt⟩)
        · exact Or.inl h
        · exact Or.inr ⟨x, List.mem_cons_of_mem c hx, hxt⟩
      · rintro (h | ⟨x, hx, hxt⟩)
        · exact Or.inl h
        · rcases List.mem_cons.mp hx with rfl | hx'
          · exact absurd hxt hI
          · exact Or.inr ⟨x, hx', hxt⟩

/-- The `meta` slot is filled after the fold exactly when it was already
filled or some chunk carries the META tag (well-formed chunks only). -/
theorem foldl_accChunk_meta_iff (cs : List Chunk) :
    ∀ acc : A2RData, (∀ c ∈ cs, WfChunk c) →
      (((cs.foldl accChunk acc).meta).isSome = true ↔
        acc.meta.isSome = true ∨ ∃ c ∈ cs, c.tag = META_CHUNK_ID) := by
  induction cs with
  | nil => intro acc _; simp
  | cons c cs ih =>
    intro acc hwf
    obtain ⟨htag, hsz, hinfo, hmeta⟩ := hwf c (List.mem_cons_self c cs)
    have hwf' : ∀ x ∈ cs, WfChunk x := fun x hx => hwf x (List.mem_cons_of_mem c hx)
    rw [List.foldl_cons, ih _ hwf']
    by_cases hM : c.tag = META_CHUNK_ID
    · obtain ⟨m, hm⟩ := hmeta hM
      rw [accChunk_meta_eq acc c m hM hm]
      simp [hM]
    · have hmetaeq : (accChunk acc c).meta = acc.meta := by
        unfold accChunk
        by_cases hI : c.tag = INFO_CHUNK_ID
        · rw [if_pos hI]
          cases parse_a2r_info_chunk c.payload <;> rfl
        · rw [if_neg hI, if_neg hM]
      rw [hmetaeq]
      constructor
      · rintro (h | ⟨x, hx, hxt⟩)
        · exact Or.inl h
        · exact Or.inr ⟨x, List.mem_cons_of_mem c hx, hxt⟩
      · rintro (h | ⟨x, hx, hxt⟩)
        · exact Or.inl h
        · rcases List.mem_cons.mp hx with rfl | hx'
          · exact absurd hxt hM
          · exact Or.inr ⟨x, hx', hxt⟩

/-- The serialized length of a well-formed chunk sequence is the sum of
`8 + size` over its chunks. -/
theorem encodeChunks_length (cs : List Chunk) (hwf : ∀ c ∈ cs, WfChunk c) :
    (encodeChunks cs).length = (cs.map (fun c => 8 + c.payload.length)).sum := by
  induction cs with
  | nil => simp [encodeChunks]
  | cons c cs ih =>
    obtain ⟨htag, _, _, _⟩ := hwf c (List.mem_cons_self c cs)
    have hwf' : ∀ x ∈ cs, WfChunk x := fun x hx => hwf x (List.mem_cons_of_mem c hx)
    have hcons : encodeChunks (c :: cs) = encodeChunk c ++ encodeChunks cs := by
      simp [encodeChunks]
    rw [hcons, List.length_append, ih hwf', List.map_cons, List.sum_cons]
    have : (encodeChunk c).length = 8 + c.payload.length := by
      simp only [encodeChunk, List.length_append, htag, u32leBytes_length]
    omega

/-- Each chunk serializes to at least one byte, so a chunk sequence never
has more chunks than serialized bytes. -/
theorem chunk_count_le_size (cs : List Chunk) :
    cs.length ≤ (cs.map (fun c => 8 + c.payload.length)).sum := by
  induction cs with
  | nil => simp
  | cons c cs ih =>
    rw [List.map_cons, List.sum_cons, List.length_cons]
    omega

/-- C5: For every valid (untruncated) container — an 8-byte header
followed by well-formed chunks of sizes `size_1..size_n` — decoding
succeeds, the final stream position is `8 + Σ (8 + size_i)` (each chunk,
recognized or not, advances the cursor by exactly `8 + size` bytes), and
the `info`/`meta` output fields are present exactly when an INFO / META
tag appeared in the stream. -/
theorem c5_full_consumption_alignment (hdr : List Nat) (cs : List Chunk)
    (hhdr : hdr.length = 8) (hwf : ∀ c ∈ cs, WfChunk c) :
    ∃ a : A2RData,
      read_a2r_datastream (hdr ++ encodeChunks cs) =
        .ok (a, 8 + (cs.map (fun c => 8 + c.payload.length)).sum) ∧
      (a.info.isSome = true ↔ ∃ c ∈ cs, c.tag = INFO_CHUNK_ID) ∧
      (a.meta.isSome = true ↔ ∃ c ∈ cs, c.tag = META_CHUNK_ID) := by
  refine ⟨cs.foldl accChunk ⟨none, none⟩, ?_, ?_, ?_⟩
  · have hfuel : cs.length < (hdr ++ encodeChunks cs).length + 1 := by
      rw [List.length_append, hhdr, encodeChunks_length cs hwf]
      have := chunk_count_le_size cs
      omega
    have hmain := readChunks_encode cs ((hdr ++ encodeChunks cs).length + 1)
      hdr ⟨none, none⟩ hfuel hwf
    rw [hhdr] at hmain
    have h0 : streamRead ⟨hdr ++ encodeChunks cs, 0⟩ 8 =
        (hdr, ⟨hdr ++ encodeChunks cs, 8⟩) := by
      simp only [streamRead, List.drop_zero, List.take_left' hhdr, hhdr,
        Nat.zero_add]
    simp only [read_a2r_datastream, h0, hmain]
    rw [encodeChunks_length cs hwf]
  · rw [foldl_accChunk_info_iff cs ⟨none, none⟩ hwf]
    simp
  · rw [foldl_accChunk_meta_iff cs ⟨none, none⟩ hwf]
    simp

/-- The chunk loop reads only the stream suffix from the cursor onward:
on two streams of equal length that agree from position `p` on, it
returns the same record and the same final position. -/
theorem readChunks_ext (fuel : Nat) :
    ∀ (d1 d2 : List Nat) (p : Nat) (acc : A2RData),
      d1.length = d2.length → d1.drop p = d2.drop p →
      (readChunks fuel ⟨d1, p⟩ acc).map (fun x => (x.1, x.2.pos)) =
      (readChunks fuel ⟨d2, p⟩ acc).map (fun x => (x.1, x.2.pos)) := by
  induction fuel with
  | zero => intro d1 d2 p acc _ _; simp [readChunks, Except.map]
  | succ fuel ih =>
    intro d1 d2 p acc hlen hdrop
    have hdropge : ∀ q, p ≤ q → d1.drop q = d2.drop q := by
      intro q hq
      have hq' : q = p + (q - p) := by omega
      rw [hq', ← List.drop_drop (q - p) p d1, ← List.drop_drop (q - p) p d2,
        hdrop]
    simp only [readChunks, streamRead, streamSeek]
    rw [hdrop]
    by_cases h8 : ((d2.drop p).take 8).length < 8
    · rw [if_pos h8, if_pos h8]
      simp [Except.map]
    · rw [if_neg h8, if_neg h8]
      by_cases hI : ((d2.drop p).take 8).take 4 = INFO_CHUNK_ID
      · rw [if_pos hI, if_pos hI]
        rw [hdropge (p + ((d2.drop p).take 8).length) (by omega)]
        cases hp : parse_a2r_info_chunk
            ((d2.drop (p + ((d2.drop p).take 8).length)).take
              (u32le (((d2.drop p).take 8).getD 4 0) (((d2.drop p).take 8).getD 5 0)
                     (((d2.drop p).take 8).getD 6 0) (((d2.drop p).take 8).getD 7 0))) with
        | error e => simp only [hp, Except.map]
        | ok r =>
          simp only [hp]
          exact ih d1 d2 _ _ hlen (hdropge _ (by omega))
      · rw [if_neg hI, if_neg hI]
        by_cases hR : ((d2.drop p).take 8).take 4 = RWCP_CHUNK_ID
        · rw [if_pos hR, if_pos hR]
          rw [hdropge (p + ((d2.drop p).take 8).length) (by omega)]
          exact ih d1 d2 _ _ hlen (hdropge _ (by omega))
        · rw [if_neg hR, if_neg hR]
          by_cases hM : ((d2.drop p).take 8).take 4 = META_CHUNK_ID
          · rw [if_pos hM, if_pos hM]
            rw [hdropge (p + ((d2.drop p).take 8).length) (by omega)]
            cases hp : parse_a2r_meta_chunk
                ((d2.drop (p + ((d2.drop p).take 8).length)).take
                  (u32le (((d2.drop p).take 8).getD 4 0) (((d2.drop p).take 8).getD 5 0)
                         (((d2.drop p).take 8).getD 6 0) (((d2.drop p).take 8).getD 7 0))) with
            | error e => simp only [hp, Except.map]
            | ok m =>
              simp only [hp]
              exact ih d1 d2 _ _ hlen (hdropge _ (by omega))
          · rw [if_neg hM, if_neg hM]
            exact ih d1 d2 _ _ hlen (hdropge _ (by omega))

/-- C10: decoding never depends on the 8-byte file header — two container
streams identical from byte 8 onward but with arbitrary (8-byte) headers
decode to equal results, errors and final positions included. -/
theorem c10_header_independence (p1 p2 rest : List Nat)
    (h1 : p1.length = 8) (h2 : p2.length = 8) :
    read_a2r_datastream (p1 ++ rest) = read_a2r_datastream (p2 ++ rest) := by
  have hlen : (p1 ++ rest).length = (p2 ++ rest).length := by
    simp [List.length_append, h1, h2]
  have hdrop : (p1 ++ rest).drop 8 = (p2 ++ rest).drop 8 := by
    rw [List.drop_left' h1, List.drop_left' h2]
  have e1 : streamRead ⟨p1 ++ rest, 0⟩ 8 = (p1, ⟨p1 ++ rest, 8⟩) := by
    simp only [streamRead, List.drop_zero, List.take_left' h1, h1, Nat.zero_add]
  have e2 : streamRead ⟨p2 ++ rest, 0⟩ 8 = (p2, ⟨p2 ++ rest, 8⟩) := by
    simp only [streamRead, List.drop_zero, List.take_left' h2, h2, Nat.zero_add]
  have hext := readChunks_ext ((p1 ++ rest).length + 1)
    (p1 ++ rest) (p2 ++ rest) 8 ⟨none, none⟩ hlen hdrop
  simp only [read_a2r_datastream, e1, e2, ← hlen]
  rcases hr1 : readChunks ((p1 ++ rest).length + 1) ⟨p1 ++ rest, 8⟩
      ⟨none, none⟩ with e | pr1 <;>
    rcases hr2 : readChunks ((p1 ++ rest).length + 1) ⟨p2 ++ rest, 8⟩
      ⟨none, none⟩ with e' | pr2 <;>
    rw [hr1, hr2] at hext <;>
    simp only [Except.map, Except.error.injEq, Except.ok.injEq,
      Prod.mk.injEq, reduceCtorEq] at hext
  · rw [hext]
  · obtain ⟨ha, hp⟩ := hext
    obtain ⟨a1, s1⟩ := pr1
    obtain ⟨a2, s2⟩ := pr2
    simp only at ha hp
    show Except.ok (a1, s1.pos) = Except.ok (a2, s2.pos)
    rw [ha, hp]

/-- C5 witness: the container `header ++ [INFO chunk, XXXX chunk]` decodes
with full consumption and an `info` slot but no `meta` slot. -/
theorem c5_witness :
    ∃ a : A2RData,
      read_a2r_datastream (List.replicate 8 0 ++ encodeChunks wChunks) =
        .ok (a, 8 + (wChunks.map (fun c => 8 + c.payload.length)).sum) ∧
      (a.info.isSome = true ↔ ∃ c ∈ wChunks, c.tag = INFO_CHUNK_ID) ∧
      (a.meta.isSome = true ↔ ∃ c ∈ wChunks, c.tag = META_CHUNK_ID) := by
  apply c5_full_consumption_alignment (List.replicate 8 0) wChunks (by decide)
  intro c hc
  simp only [wChunks, List.mem_cons, List.not_mem_nil, or_false] at hc
  rcases hc with rfl | rfl
  · exact ⟨by decide, by decide, fun _ => ⟨recA, by decide⟩,
      fun h => absurd h (by decide)⟩
  · exact ⟨by decide, by decide, fun h => absurd h (by decide),
      fun h => absurd h (by decide)⟩

/-- C10 witness: changing the 8 header bytes of the Scenario A container
leaves the decoded result unchanged, and the result evaluates to the
Scenario A record. -/
theorem c10_witness :
    read_a2r_datastream (List.replicate 8 0 ++
        (INFO_CHUNK_ID ++ u32leBytes 37 ++ payloadA)) =
      read_a2r_datastream ([1, 2, 3, 4, 5, 6, 7, 8] ++
        (INFO_CHUNK_ID ++ u32leBytes 37 ++ payloadA)) ∧
    read_a2r_datastream ([1, 2, 3, 4, 5, 6, 7, 8] ++
        (INFO_CHUNK_ID ++ u32leBytes 37 ++ payloadA)) =
      .ok (⟨some recA, none⟩, 53) :=
  ⟨c10_header_independence (List.replicate 8 0) [1, 2, 3, 4, 5, 6, 7, 8]
      (INFO_CHUNK_ID ++ u32leBytes 37 ++ payloadA) (by decide) (by decide),
   by decide⟩

/-- C1 (code behavior at the failing input): on a stream whose chunk
header claims `size = 1000` with only 50 bytes remaining, the source
performs a silent short read: it returns successfully, produces a
partial `InfoRecord` parsed from the 50 available bytes, and raises no
`TruncatedContainerError`, contradicting the specified behavior. -/
theorem c1_code_accepts_truncated_stream :
    read_a2r_datastream truncatedStream = .ok (⟨some recA, none⟩, 66) ∧
    read_a2r_datastream truncatedStream ≠ .error .truncatedContainer := by
  constructor
  · decide
  · decide

/-- C3: an INFO payload of at least 37 bytes whose creator field decodes
as UTF-8 yields the record with `info_version` from byte 0, the creator
code points (bytes 1–32) with trailing spaces stripped, `drive_type` from
byte 33, the `write_protected` and `synchronized` bytes from offsets 34
and 35 (raw bytes; Python interprets them as booleans via truthiness,
non-zero = true), and `hard_sector_count` from byte 36; and the Scenario A
container decodes to creator `"Sculptured Software"`, drive_type 4 and a
truthy (non-zero) `write_protected`. -/
theorem c3_info_layout :
    (∀ (data : List Nat) (cps : List Nat),
       37 ≤ data.length →
       utf8Decode ((data.drop 1).take 32) = some cps →
       parse_a2r_info_chunk data = .ok
         { info_version := data.getD 0 0
           creator := pyRstripSpace cps
           drive_type := data.getD 33 0
           write_protected := data.getD 34 0
           synchronized := data.getD 35 0
           hard_sector_count := data.getD 36 0 }) ∧
    read_a2r_datastream scenarioA = .ok (⟨some recA, none⟩, 53) ∧
    recA.creator = asciiCps "Sculptured Software" ∧
    recA.drive_type = 4 ∧ recA.write_protected ≠ 0 := by
  refine ⟨?_, by decide, by decide, by decide, by decide⟩
  intro data cps hlen hdec
  have hnot : ¬ data.length < 37 := by omega
  unfold parse_a2r_info_chunk
  rw [if_neg (by omega : ¬ data.length < 1), hdec]
  simp [hnot]

/-- C3 witness: the general layout theorem applied to the Scenario A
payload produces the Scenario A record. -/
theorem c3_witness : parse_a2r_info_chunk payloadA = .ok recA := by
  have h := c3_info_layout.1 payloadA
    (asciiCps "Sculptured Software" ++ List.replicate 13 32)
    (by decide) (by decide)
  rw [h]
  decide

/-- C8 counterexample: the 2-byte INFO payload `[0, 195]` is shorter than
37 bytes, yet the decoder fails with `EncodingError` (the creator slice
`[195]` is invalid UTF-8, and the source decodes the creator before the
remaining `struct.unpack_from` bound checks), not with
`MalformedInfoChunkError`. -/
theorem c8_counterexample :
    ([0, 195] : List Nat).length < 37 ∧
    parse_a2r_info_chunk [0, 195] ≠ .error .malformedInfoChunk ∧
    parse_a2r_info_chunk [0, 195] = .error .encodingError := by
  refine ⟨by decide, by decide, by decide⟩

/-- C8 (amended): every INFO payload shorter than 37 bytes is rejected
with an error — `EncodingError` when the payload is non-empty and its
creator slice (bytes 1–32) is invalid UTF-8, `MalformedInfoChunkError`
otherwise. -/
theorem c8_short_info_rejected (data : List Nat) (h : data.length < 37) :
    parse_a2r_info_chunk data =
      .error (if 1 ≤ data.length ∧ utf8Decode ((data.drop 1).take 32) = none
              then A2RError.encodingError else A2RError.malformedInfoChunk) := by
  unfold parse_a2r_info_chunk
  by_cases h1 : data.length < 1
  · rw [if_pos h1, if_neg (fun hc => by omega)]
  · rw [if_neg h1]
    cases hdec : utf8Decode ((data.drop 1).take 32) with
    | none =>
      rw [if_pos ⟨by omega, rfl⟩]
    | some cps =>
      simp [h]

/-- C4 counterexample: on the payload `b"a \tb"` the source strips the
key's trailing space and maps `"a" ↦ "b"`, while the claim's procedure
(no stripping) maps `"a " ↦ "b"` — the decoded mapping is not the one the
claim describes. -/
theorem c4_counterexample :
    utf8Decode [97, 32, 9, 98] = some [97, 32, 9, 98] ∧
    parse_a2r_meta_chunk [97, 32, 9, 98] ≠
      .ok (claimMetaMapping [97, 32, 9, 98]) := by
  refine ⟨by decide, by decide⟩

/-- C4 (amended): for every valid-UTF-8 META payload, decoding produces
the mapping obtained by stripping surrounding whitespace from the whole
text, splitting into newline-delimited lines, splitting each line on
tabs, ignoring lines with fewer than two tab-separated fields, and
mapping the whitespace-stripped first field to the whitespace-stripped
second field, with the last occurrence of a duplicate key winning. -/
theorem c4_meta_mapping (data cps : List Nat)
    (h : utf8Decode data = some cps) :
    parse_a2r_meta_chunk data = .ok (amendedMetaMapping cps) := by
  unfold parse_a2r_meta_chunk amendedMetaMapping metaLineStep
  rw [h]

/-- C4 witness: the Scenario B payload decodes to
`{"title": "WordPerfect", "language": "English"}`. -/
theorem c4_witness :
    parse_a2r_meta_chunk (asciiCps "title\tWordPerfect\nlanguage\tEnglish\n") =
      .ok [(asciiCps "title", asciiCps "WordPerfect"),
           (asciiCps "language", asciiCps "English")] := by
  have h := c4_meta_mapping (asciiCps "title\tWordPerfect\nlanguage\tEnglish\n")
    (asciiCps "title\tWordPerfect\nlanguage\tEnglish\n") (by decide)
  rw [h]
  decide

/-- `is_duplicate_of` applied to an `Entry` argument, written as a single
conditional expression (definitional unfolding of the source's early
returns). -/
theorem is_duplicate_of_entry (a b : Entry) :
    is_duplicate_of a (.entry b) =
      if a.id = b.id then false
      else if get_file_hashes a = ∅ ∨ get_file_hashes b = ∅ then false
      else decide (get_file_hashes a = get_file_hashes b) := rfl

/-- `mark_as_duplicate` applied to an `Entry` argument. -/
theorem mark_as_duplicate_entry (rel : Finset (Nat × Nat)) (a b : Entry) :
    mark_as_duplicate rel a (.entry b) =
      if is_duplicate_of a (.entry b) then (dupAdd rel a.id b.id, true)
      else (rel, false) := rfl

/-- C2: `is_duplicate_of` is false on equal primary keys, false when
either content-hash set is empty, and otherwise true exactly when the two
hash sets are set-equal. -/
theorem c2_is_duplicate_characterization (a b : Entry) :
    (a.id = b.id → is_duplicate_of a (.entry b) = false) ∧
    ((get_file_hashes a = ∅ ∨ get_file_hashes b = ∅) →
      is_duplicate_of a (.entry b) = false) ∧
    (a.id ≠ b.id → get_file_hashes a ≠ ∅ → get_file_hashes b ≠ ∅ →
      (is_duplicate_of a (.entry b) = true ↔
        get_file_hashes a = get_file_hashes b)) := by
  rw [is_duplicate_of_entry]
  refine ⟨?_, ?_, ?_⟩
  · intro h; rw [if_pos h]
  · intro h
    by_cases hid : a.id = b.id
    · rw [if_pos hid]
    · rw [if_neg hid, if_pos h]
  · intro hid hae hbe
    rw [if_neg hid, if_neg (by tauto)]
    simp only [decide_eq_true_eq]

/-- C2 witness: Scenario C — X and Y (same hashes, different filenames)
are duplicates; X and Z (one differing hash) are not. -/
theorem c2_witness :
    is_duplicate_of entryX (.entry entryY) = true ∧
    is_duplicate_of entryX (.entry entryZ) = false := by
  constructor
  · exact ((c2_is_duplicate_characterization entryX entryY).2.2 (by decide)
      (by decide) (by decide)).mpr (by decide)
  · have h := (c2_is_duplicate_characterization entryX entryZ).2.2 (by decide)
      (by decide) (by decide)
    have hne : ¬ (get_file_hashes entryX = get_file_hashes entryZ) := by decide
    cases hb : is_duplicate_of entryX (.entry entryZ)
    · rfl
    · exact absurd (h.mp hb) hne

/-- C7: `is_duplicate_of` is symmetric: every check (primary-key
equality, emptiness of either hash set, set equality) is symmetric in
the two entries. -/
theorem c7_symmetry (a b : Entry) :
    is_duplicate_of a (.entry b) = is_duplicate_of b (.entry a) := by
  rw [is_duplicate_of_entry, is_duplicate_of_entry]
  by_cases hid : a.id = b.id
  · have hid' : b.id = a.id := hid.symm
    rw [if_pos hid, if_pos hid']
  · have hid' : ¬ b.id = a.id := fun h => hid h.symm
    rw [if_neg hid, if_neg hid']
    by_cases he : get_file_hashes a = ∅ ∨ get_file_hashes b = ∅
    · have he' : get_file_hashes b = ∅ ∨ get_file_hashes a = ∅ := he.symm
      rw [if_pos he, if_pos he']
    · have he' : ¬ (get_file_hashes b = ∅ ∨ get_file_hashes a = ∅) :=
        fun h => he h.symm
      rw [if_neg he, if_neg he']
      simp only [decide_eq_decide]
      exact eq_comm

/-- C6: `mark_as_duplicate` re-validates `is_duplicate_of` at call time;
when it holds it adds the symmetric edge pair and returns true, and
re-marking the already-marked pair leaves the relation unchanged; when it
fails it changes nothing and returns false. -/
theorem c6_mark_revalidates (rel : Finset (Nat × Nat)) (a b : Entry) :
    (is_duplicate_of a (.entry b) = true →
      mark_as_duplicate rel a (.entry b) = (dupAdd rel a.id b.id, true) ∧
      mark_as_duplicate (dupAdd rel a.id b.id) a (.entry b) =
        (dupAdd rel a.id b.id, true)) ∧
    (is_duplicate_of a (.entry b) = false →
      mark_as_duplicate rel a (.entry b) = (rel, false)) := by
  constructor
  · intro h
    constructor
    · rw [mark_as_duplicate_entry, if_pos h]
    · rw [mark_as_duplicate_entry, if_pos h]
      have hidem : dupAdd (dupAdd rel a.id b.id) a.id b.id =
          dupAdd rel a.id b.id := by
        unfold dupAdd
        ext x
        simp only [Finset.mem_insert]
        tauto
      rw [hidem]
  · intro h
    rw [mark_as_duplicate_entry, if_neg (by simp [h])]

/-- C6 witness: marking the Scenario C duplicates X, Y from the empty
relation adds the edge pair; re-marking changes nothing; marking the
non-duplicates X, Z changes nothing and returns false. -/
theorem c6_witness :
    mark_as_duplicate ∅ entryX (.entry entryY) =
      (dupAdd ∅ entryX.id entryY.id, true) ∧
    mark_as_duplicate (dupAdd ∅ entryX.id entryY.id) entryX (.entry entryY) =
      (dupAdd ∅ entryX.id entryY.id, true) ∧
    mark_as_duplicate ∅ entryX (.entry entryZ) = (∅, false) := by
  refine ⟨?_, ?_, ?_⟩
  · exact ((c6_mark_revalidates ∅ entryX entryY).1 (by decide)).1
  · exact ((c6_mark_revalidates ∅ entryX entryY).1 (by decide)).2
  · exact (c6_mark_revalidates ∅ entryX entryZ).2 (by decide)

/-- C9: handed any non-`Entry` value (`None`, a string, an integer), the
duplicate engine signals through its return value and never raises:
`is_duplicate_of` returns false and `mark_as_duplicate` leaves the
relation unchanged and returns false.  (Both are total functions in this
embedding, as in the source, which has no raise site.) -/
theorem c9_non_entity_inputs (a : Entry) (x : PyValue)
    (rel : Finset (Nat × Nat)) (h : x.isEntry = false) :
    is_duplicate_of a x = false ∧ mark_as_duplicate rel a x = (rel, false) := by
  have hdup : is_duplicate_of a x = false := by
    cases x with
    | entry o => simp [PyValue.isEntry] at h
    | pyNone => rfl
    | pyStr s => rfl
    | pyInt n => rfl
  refine ⟨hdup, ?_⟩
  unfold mark_as_duplicate
  simp [hdup]

/-- C9 witness: `None` and the string `"floppy"` are never duplicates of
an entity and never change the relation. -/
theorem c9_witness :
    (is_duplicate_of entryX PyValue.pyNone = false ∧
      mark_as_duplicate ∅ entryX PyValue.pyNone = (∅, false)) ∧
    (is_duplicate_of entryX (PyValue.pyStr "floppy") = false ∧
      mark_as_duplicate ∅ entryX (PyValue.pyStr "floppy") = (∅, false)) :=
  ⟨c9_non_entity_inputs entryX PyValue.pyNone ∅ (by decide),
   c9_non_entity_inputs entryX (PyValue.pyStr "floppy") ∅ (by decide)⟩

/-- C8 witness: a 3-byte payload (valid ASCII in the creator slice) is
rejected with `MalformedInfoChunkError`. -/
theorem c8_witness :
    parse_a2r_info_chunk [1, 2, 3] = .error .malformedInfoChunk := by
  have h := c8_short_info_rejected [1, 2, 3] (by decide)
  rw [h]
  decide
